import Mathlib

/-!
Verification development for the `plotternova` plotting library.

The numeric parts of the library (histogram construction in
`plot_objects/standard2d.py`, the utility functions in `utils.py`, and the
plot-container orchestration in `plot_classes/basic.py` and
`plot_classes/hist.py`) are shallowly embedded here.  Machine floating-point
numbers are modelled by exact rationals (`ℚ`); Python exceptions are modelled
by `Except PyError`; `numpy` calls are modelled by executable Lean functions
that reproduce the exact-arithmetic semantics of the corresponding numpy
primitives.
-/

namespace Plotternova

/-- Python exceptions raised by the embedded code: `ValueError` and
`TypeError`, each carrying its message. -/
inductive PyError where
  | valueError (msg : String)
  | typeError (msg : String)
deriving Repr, DecidableEq

/-- The `bins` argument of `Hist.__init__`: either an integer bin count or an
explicit array of bin edges (`bins: int | npt.ArrayLike`). -/
inductive BinSpec where
  | count (n : ℕ)
  | edges (e : List ℚ)
deriving Repr, DecidableEq

/-- The state stored on a `Hist` object by `Hist.__init__`
(`standard2d.py`): per-bin counts (`self.data`), bin edges (`self.bins`),
optional per-bin uncertainties (`self.err`), effective event weights
(`self.weights`), and the flags and appearance attributes. -/
structure Hist where
  data : List ℚ
  bins : List ℚ
  err : Option (List ℚ)
  weights : List ℚ
  counted : Bool
  normalize : Bool
  hist_type : String
  err_style : String
  label : Option String
deriving Repr, DecidableEq

/-- `np.min` on a list (the embedded callers only apply it to non-empty
lists; numpy raises on an empty array, modelled by the junk value `0`). -/
def npMin : List ℚ → ℚ
  | [] => 0
  | x :: xs => xs.foldl min x

/-- `np.max` on a list (the embedded callers only apply it to non-empty
lists; numpy raises on an empty array, modelled by the junk value `0`). -/
def npMax : List ℚ → ℚ
  | [] => 0
  | x :: xs => xs.foldl max x

/-- `np.sqrt` restricted to the rationals.  Exact on perfect-square
rationals (numerator and denominator perfect squares), which is the only
case where an exact rational model of `np.sqrt` exists.  No theorem below
depends on its values elsewhere. -/
def ratSqrt (x : ℚ) : ℚ :=
  (Nat.sqrt x.num.toNat : ℚ) / (Nat.sqrt x.den : ℚ)

/-- The equally spaced bin edges numpy produces for an integer bin count
`n` over the range `[lo, hi]`: edge `i` is `lo + (hi - lo) * i / n`. -/
def linEdges (lo hi : ℚ) (n : ℕ) : List ℚ :=
  (List.range (n + 1)).map (fun i : ℕ => lo + (hi - lo) * (i : ℚ) / (n : ℚ))

/-- The bin index `np.histogram` assigns to a sample `x` for the edge array
`edges`: `none` when `x` lies outside `[edges.head, edges.last]` (the sample
is discarded), otherwise the index `j` of the half-open bin
`edges[j] ≤ x < edges[j+1]`, with the last bin closed on the right.  The
index is computed as numpy does via a right-sided binary search
(`countP (· ≤ x)` is the insertion point). -/
def binIndex : List ℚ → ℚ → Option ℕ
  | [], _ => none
  | [_], _ => none
  | e₀ :: e₁ :: rest, x =>
    let es := e₀ :: e₁ :: rest
    let last := es.getLastD 0
    if x < e₀ ∨ last < x then none
    else if x = last then some (es.length - 2)
    else some (es.countP (fun e => decide (e ≤ x)) - 1)

/-- numpy's monotonicity requirement on an explicit bin-edge array:
adjacent edges must be non-decreasing. -/
def monotoneEdges : List ℚ → Bool
  | [] => true
  | [_] => true
  | e₀ :: e₁ :: rest => decide (e₀ ≤ e₁) && monotoneEdges (e₁ :: rest)

/-- Total weight that falls into bin `j`: the sum of the weights of the
weighted samples `(x, w)` with `binIndex edges x = some j`. -/
def binWeight (edges : List ℚ) (sw : List (ℚ × ℚ)) (j : ℕ) : ℚ :=
  (sw.map (fun p => if binIndex edges p.1 = some j then p.2 else 0)).sum

/-- The per-bin counts `np.histogram` returns: one entry per bin
(`edges.length - 1` bins), each the total weight landing in that bin. -/
def histCounts (edges : List ℚ) (sw : List (ℚ × ℚ)) : List ℚ :=
  (List.range (edges.length - 1)).map (binWeight edges sw)

/-- numpy's outer-edge computation for `np.histogram`: the requested
`range` when given, else `(0, 1)` for empty data, else the min and max of
the data; raises when the upper bound is below the lower, and widens a
degenerate range by one half on each side. -/
def npHistRange (data : List ℚ) (bin_range : Option (ℚ × ℚ)) :
    Except PyError (ℚ × ℚ) :=
  let lohi := match bin_range with
    | some r => r
    | none => if data = [] then ((0 : ℚ), (1 : ℚ)) else (npMin data, npMax data)
  if lohi.2 < lohi.1 then
    .error (.valueError "max must be larger than min in range parameter.")
  else if lohi.1 = lohi.2 then .ok (lohi.1 - 1/2, lohi.2 + 1/2)
  else .ok lohi

/-- `np.histogram(data, bins, range, weights)`: returns
`(counts, bin_edges)`.  An integer bin count must be positive and yields
equally spaced edges over the outer range; an explicit edge array must be
monotone and is used as given (numpy ignores `range` in that case). -/
def npHistogram (data : List ℚ) (bins : BinSpec) (bin_range : Option (ℚ × ℚ))
    (weights : List ℚ) : Except PyError (List ℚ × List ℚ) :=
  match bins with
  | .count n =>
    if n = 0 then .error (.valueError "`bins` must be positive, when an integer")
    else do
      let lohi ← npHistRange data bin_range
      let edges := linEdges lohi.1 lohi.2 n
      .ok (histCounts edges (data.zip weights), edges)
  | .edges e =>
    if monotoneEdges e then .ok (histCounts e (data.zip weights), e)
    else .error (.valueError "`bins` must increase monotonically, when an array")

/-- The normalization step of `Hist.__init__` (lines 166-169 of
`standard2d.py`): divide the counts, and the uncertainty when present, by
the total count sum in pre-counted mode or the total weight sum in raw
mode. -/
def normalizeHist (h : Hist) : Hist :=
  let sum_counts := if h.counted then h.data.sum else h.weights.sum
  { h with
    data := h.data.map (fun c => c / sum_counts)
    err := h.err.map (fun e => e.map (fun v => v / sum_counts)) }

/-- The computation part of `Hist.__init__` (`standard2d.py`, lines
112-163) before the normalization step: weight/shape validation, the
pre-counted-mode checks, binning via `np.histogram`, and the uncertainty
computation.  `check_shape` is imported from `utils` but absent from the
repository's sources; its length check is modelled from the spec ("shape
validation", "invalid shape combinations raise immediately with a
descriptive message"). -/
def histCore (data : List ℚ) (bins : BinSpec) (bin_range : Option (ℚ × ℚ))
    (counted : Bool) (weights : Option (List ℚ)) (include_error : Bool)
    (hist_type : String) (err_style : String) (label : Option String) :
    Except PyError Hist := do
  -- Modelled from the spec: `check_shape(data, weights, "data", "weights")`
  -- raises on mismatched lengths and otherwise returns the pair unchanged.
  let wts ← match weights with
    | some w =>
      if w.length ≠ data.length then
        Except.error (.valueError "data and weights must have the same shape")
      else Except.ok w
    | none => Except.ok (List.replicate data.length (1 : ℚ))
  if counted then
    match bins with
    | .count _ =>
      .error (.valueError "Passed in bins, which is an int, while setting counted=True. Ensure an arraylike of binedges is passed.")
    | .edges e =>
      if (data.length : ℤ) ≠ (e.length : ℤ) - 1 then
        .error (.valueError "Specified counted=True, but length of the data array is not the length of the bin edges - 1.")
      else
        let err : Option (List ℚ) :=
          if include_error then
            some (match weights with
              | some w => w.map ratSqrt
              | none => data.map (fun x => x ^ 2))
          else none
        .ok ⟨data, e, err, wts, counted, false, hist_type, err_style, label⟩
  else do
    let ce ← npHistogram data bins bin_range wts
    let err ← if include_error then
        match weights with
        | some w => do
          -- the error histogram call in the source omits `range`
          let e2 ← npHistogram data bins none (w.map (fun x => x ^ 2))
          pure (some (e2.1.map ratSqrt))
        | none => pure (some (ce.1.map ratSqrt))
      else pure none
    .ok ⟨ce.1, ce.2, err, wts, counted, false, hist_type, err_style, label⟩

/-- `Hist.__init__`: the computation part followed by the optional
normalization, with the `normalize` flag stored on the object. -/
def histInit (data : List ℚ) (bins : BinSpec) (bin_range : Option (ℚ × ℚ))
    (counted : Bool) (weights : Option (List ℚ)) (include_error : Bool)
    (normalize : Bool) (hist_type : String) (err_style : String)
    (label : Option String) : Except PyError Hist :=
  (histCore data bins bin_range counted weights include_error hist_type
      err_style label).map
    (fun h0 =>
      let h1 := { h0 with normalize := normalize }
      if normalize then normalizeHist h1 else h1)

/-! ### `Hist.draw` (`standard2d.py`) -/

/-- The vertex list of the ATLAS-style uncertainty polygon built in
`Hist.draw`.  Upper loop (`for i in range(len(bin_edges)-1)`): append
`(binl, y+e)` then `(binr, y+e)` per bin.  Lower loop
(`for i in range(len(bin_edges)-1, 0, -1)`, modelled as the reverse of
`range(len(bin_edges)-1)` with `j = i-1`): append `(binr, y-e)` then
`(binl, y-e)`.  Python list indexing is modelled by `List.getD` (the draw
code only indexes in bounds). -/
def atlasVerts (bin_edges data err : List ℚ) : List (ℚ × ℚ) :=
  (((List.range (bin_edges.length - 1)).map (fun i =>
      [(bin_edges.getD i 0, data.getD i 0 + err.getD i 0),
       (bin_edges.getD (i + 1) 0, data.getD i 0 + err.getD i 0)])).flatten) ++
  (((List.range (bin_edges.length - 1)).reverse.map (fun j =>
      [(bin_edges.getD (j + 1) 0, data.getD j 0 - err.getD j 0),
       (bin_edges.getD j 0, data.getD j 0 - err.getD j 0)])).flatten)

/-- The polygon as the spec describes it: the upper envelope traced
left-to-right — for bin `i` the points `(left_i, count_i + err_i)` then
`(right_i, count_i + err_i)` — followed by the lower envelope traced
right-to-left, i.e. the reverse of the left-to-right lower trace whose
bin-`i` points are `(left_i, count_i - err_i)` then
`(right_i, count_i - err_i)`.  Stated from the spec's words, to be compared
with `atlasVerts`. -/
def atlasVertsSpec (bin_edges data err : List ℚ) : List (ℚ × ℚ) :=
  (((List.range (bin_edges.length - 1)).map (fun i =>
      [(bin_edges.getD i 0, data.getD i 0 + err.getD i 0),
       (bin_edges.getD (i + 1) 0, data.getD i 0 + err.getD i 0)])).flatten) ++
  ((((List.range (bin_edges.length - 1)).map (fun i =>
      [(bin_edges.getD i 0, data.getD i 0 - err.getD i 0),
       (bin_edges.getD (i + 1) 0, data.getD i 0 - err.getD i 0)])).flatten).reverse)

/-- The uncertainty representation `Hist.draw` renders: the ATLAS hatched
polygon (with its vertices), the translucent fill-between band, or
error-bar markers. -/
inductive ErrFeature where
  | atlasPoly (verts : List (ℚ × ℚ))
  | fillBetween
  | errorbar
deriving Repr, DecidableEq

/-- Observable outcome of a successful `Hist.draw` call: the console
warnings printed and the uncertainty feature drawn, if any. -/
structure DrawOutcome where
  warnings : List String
  errFeature : Option ErrFeature
deriving Repr, DecidableEq

/-- `Hist.draw` (`standard2d.py`, lines 183-267): dispatch on `hist_type`
(an unknown value raises `ValueError`), then, when an uncertainty array is
stored, dispatch on `err_style` (an unknown value prints two warnings and
skips the uncertainty rendering).  The messages abbreviate the Python
f-strings. -/
def histDraw (h : Hist) : Except PyError DrawOutcome :=
  match h.hist_type with
  | "step" | "stepfilled" | "bar" | "point" =>
    match h.err with
    | none => .ok ⟨[], none⟩
    | some err =>
      match h.err_style with
      | "ATLAS" => .ok ⟨[], some (.atlasPoly (atlasVerts h.bins h.data err))⟩
      | "fillbetween" => .ok ⟨[], some .fillBetween⟩
      | "errorbar" => .ok ⟨[], some .errorbar⟩
      | other => .ok ⟨["Warning: " ++ other ++ " not a error style.",
          "Valid error types are ATLAS, fillbetween, errorbar."], none⟩
  | _ =>
    .error (.valueError (h.hist_type ++
      " is an invalid histogram type. Choose either step, stepfilled, or bar."))

/-! ### Legend and grid helpers (`utils.py`) -/

/-- The `settings` argument of `decorate_legend`: a preset name string or a
keyword dictionary (`type(settings) == str` distinguishes the two). -/
inductive LegendSettings where
  | preset (s : String)
  | custom (kwargs : List (String × String))
deriving Repr, DecidableEq

/-- Observable outcome of `decorate_legend`: whether `ax.legend` was
called, and the console messages printed. -/
structure LegendOutcome where
  legendApplied : Bool
  messages : List String
deriving Repr, DecidableEq

/-- `decorate_legend` (`utils.py`, lines 8-34): a known preset name calls
`ax.legend` (the two fancy presets only print a placeholder), an unknown
preset name prints a warning and sets no legend, and a keyword dictionary
is passed to `ax.legend` directly. -/
def decorate_legend (settings : LegendSettings) : LegendOutcome :=
  match settings with
  | .preset s =>
    match s with
    | "default inside" => ⟨true, []⟩
    | "default outside" => ⟨true, []⟩
    | "fancy inside" => ⟨false, ["have not implemented yet :("]⟩
    | "fancy_outside" => ⟨false, ["have not implemented yet :("]⟩
    | _ => ⟨false, ["Warning: " ++ s ++ " is an invalid legend settings type! Check documentation for available legend presets."]⟩
  | .custom _ => ⟨true, []⟩

/-- Observable outcome of `grid_adjuster`: the linestyles of the major and
minor grid activated (if any), and the console messages printed. -/
structure GridOutcome where
  major : Option String
  minor : Option String
  messages : List String
deriving Repr, DecidableEq

/-- The `options` linestyle table of `grid_adjuster` (only ever queried
with a valid key; the junk value for other keys is unreachable). -/
def gridOptions (s : String) : String :=
  if s = "line" then "-" else if s = "dash" then "--" else if s = "dot" then ":" else ""

/-- `preset.split("-")` for a single-character separator: split the
character list at every occurrence of the separator, keeping empty
segments, exactly as Python str.split does. -/
def pySplit (sep : Char) (s : String) : List String :=
  (s.toList.splitOn sep).map String.mk

/-- `grid_adjuster` (`utils.py`, lines 70-110): split the preset on dashes;
any token outside line/dash/dot warns and disables the grid; one token
activates the major grid, two activate major and minor, and more tokens
warn and activate nothing (the `match len(settings)` of the source is
modelled by matching the list shape).  The messages abbreviate the Python
strings. -/
def grid_adjuster (preset : String) : GridOutcome :=
  let settings := pySplit (Char.ofNat 45) preset
  if !(settings.all fun g => g = "line" || g = "dash" || g = "dot") then
    ⟨none, none, ["Warning: invalid grid option requested. Types are only line, dash, and dot. Disabling grid..."]⟩
  else
    match settings with
    | [g] => ⟨some (gridOptions g), none, []⟩
    | [g1, g2] => ⟨some (gridOptions g1), some (gridOptions g2), []⟩
    | _ => ⟨none, none, ["Warning: not a valid preset. Can at most activate grid lines for major and minor ticks. Cannot have line-line-line for example."]⟩

/-! ### Plot-object kinds and `HistPlot.add_data` (`plot_classes/hist.py`) -/

/-- The closed set of `Standard2dObject` subclasses defined in
`standard2d.py`: `Hist`, `PointsLines`, `ErrorBar`, `FillBetween`, `Step`. -/
inductive ObjKind where
  | hist
  | pointsLines
  | errorBar
  | fillBetween
  | step
deriving Repr, DecidableEq

/-- Python class name of a plot-object kind. -/
def objTypeName : ObjKind → String
  | .hist => "Hist"
  | .pointsLines => "PointsLines"
  | .errorBar => "ErrorBar"
  | .fillBetween => "FillBetween"
  | .step => "Step"

/-- `isinstance(plot_object, HistPlot.ALLOWED_TYPES)` where
`ALLOWED_TYPES = (Hist, PointsLines, ErrorBar, FillBetween)`. -/
def allowedType : ObjKind → Bool
  | .hist => true
  | .pointsLines => true
  | .errorBar => true
  | .fillBetween => true
  | .step => false

/-- The `TypeError` message `HistPlot.add_data` raises for an invalid
object. -/
def invalidTypeMsg (k : ObjKind) : String :=
  "Invalid plot type: " ++ objTypeName k ++
    ". Allowed types for histograms: [Hist, PointsLines, ErrorBar, FillBetween]"

/-- `HistPlot.add_data(*plot_objects)`: iterate the arguments, appending
each allowed object to `self._datasets` and raising `TypeError` at the
first disallowed one.  Returns the dataset list as left in place together
with the raised error, if any. -/
def histPlotAddData : List ObjKind → List ObjKind → List ObjKind × Option PyError
  | ds, [] => (ds, none)
  | ds, o :: rest =>
    if allowedType o then histPlotAddData (ds ++ [o]) rest
    else (ds, some (.typeError (invalidTypeMsg o)))

/-! ### The drawing loops of `BasicPlot.plot` and `HistPlot.plot` -/

/-- A plot object as the drawing loops see it: its `label` attribute
(`None` or a string) and an identity; the handle returned by
`dataset.draw(ax)` is modelled by the object itself. -/
structure PlotObjS where
  label : Option String
  id : ℕ
deriving Repr, DecidableEq

/-- Python truthiness of a label (`if label:`): `None` and the empty
string are falsy. -/
def labelTruthy : Option String → Bool
  | none => false
  | some s => decide (s ≠ "")

/-- State accumulated by the `HistPlot.plot` drawing loop: the datasets
drawn so far (in draw order) and the `legend_handles`/`legend_labels`
lists. -/
structure HistLoopState where
  drawn : List PlotObjS
  legend_handles : List PlotObjS
  legend_labels : List String
deriving Repr, DecidableEq

/-- One iteration of the `HistPlot.plot` loop (`hist.py`, lines 87-108):
draw the dataset, then append the handle and label only when the label is
truthy. -/
def histPlotStep (st : HistLoopState) (d : PlotObjS) : HistLoopState :=
  let handle := d
  let st' : HistLoopState := { st with drawn := st.drawn ++ [d] }
  if labelTruthy d.label then
    { st' with legend_handles := st'.legend_handles ++ [handle],
               legend_labels := st'.legend_labels ++ [d.label.getD ""] }
  else st'

/-- The `HistPlot.plot` drawing loop over `self._datasets`. -/
def histPlotLoop (datasets : List PlotObjS) : HistLoopState :=
  datasets.foldl histPlotStep ⟨[], [], []⟩

/-- State accumulated by the `BasicPlot.plot` drawing loop; its label list
stores the raw label attributes (possibly `None`). -/
structure BasicLoopState where
  drawn : List PlotObjS
  legend_handles : List PlotObjS
  legend_labels : List (Option String)
deriving Repr, DecidableEq

/-- One iteration of the `BasicPlot.plot` loop (`basic.py`, lines
130-136): draw the dataset, then append the handle and label
unconditionally. -/
def basicPlotStep (st : BasicLoopState) (d : PlotObjS) : BasicLoopState :=
  let handle := d
  { st with drawn := st.drawn ++ [d],
            legend_handles := st.legend_handles ++ [handle],
            legend_labels := st.legend_labels ++ [d.label] }

/-- The `BasicPlot.plot` drawing loop over `self._datasets`. -/
def basicPlotLoop (datasets : List PlotObjS) : BasicLoopState :=
  datasets.foldl basicPlotStep ⟨[], [], []⟩

/-! ### Auto limits (`utils.py`) -/

/-- For `y ≥ 1`, the least `k : ℕ` with `y ≤ 10^k`, via the integer
logarithm of `⌊y⌋` (`np.ceil(np.log10 y)` in exact arithmetic). -/
def ceilLog10ge1 (y : ℚ) : ℤ :=
  let f := Nat.log 10 y.floor.toNat
  if y ≤ (10 : ℚ) ^ f then (f : ℤ) else (f : ℤ) + 1

/-- `np.floor(np.log10 x)` in exact arithmetic, for `x > 0` (the greatest
`z` with `10^z ≤ x`); junk value for `x ≤ 0`, where numpy produces
nan or -inf. -/
def floorLog10 (x : ℚ) : ℤ :=
  if 1 ≤ x then (Nat.log 10 x.floor.toNat : ℤ)
  else -(ceilLog10ge1 (1 / x))

/-- `np.ceil(np.log10 x)` in exact arithmetic, for `x > 0` (the least `z`
with `x ≤ 10^z`); junk value for `x ≤ 0`, where numpy produces
nan or -inf. -/
def ceilLog10 (x : ℚ) : ℤ :=
  if 1 ≤ x then ceilLog10ge1 x
  else -(Nat.log 10 (1 / x).floor.toNat : ℤ)

/-- `magnitude_round` (`utils.py`, lines 124-128):
`10**np.ceil(np.log10 x)` or `10**np.floor(np.log10 x)` depending on the
`type` string; Python falls through (returning `None`) for other strings,
modelled by the junk value 0 — the repository only calls it with `"ceil"`
and `"floor"`. -/
def magnitude_round (x : ℚ) (t : String) : ℚ :=
  if t = "ceil" then (10 : ℚ) ^ ceilLog10 x
  else if t = "floor" then (10 : ℚ) ^ floorLog10 x
  else 0

/-- `compute_auto_limits` (`utils.py`, lines 113-121): on a linear axis,
pad the observed `[min, max]` span by 4% on each side; on a log axis,
round the low bound down and the high bound up to powers of ten via
`magnitude_round`. -/
def compute_auto_limits (min_arr max_arr : List ℚ) (log : Bool) : List ℚ :=
  let low := if log then magnitude_round (npMin min_arr) "floor" else npMin min_arr
  let high := if log then magnitude_round (npMax max_arr) "ceil" else npMax max_arr
  if log then [low, high]
  else
    let span := high - low
    [low - 0.04 * span, high + 0.04 * span]

end Plotternova

namespace Plotternova

/-! ### Theorems -/

theorem except_bind_ok {ε α β : Type _} (a : α) (f : α → Except ε β) :
    (Except.ok a >>= f) = f a := rfl

theorem except_bind_error {ε α β : Type _} (e : ε) (f : α → Except ε β) :
    ((Except.error e : Except ε α) >>= f) = .error e := rfl

theorem except_map_ok {ε α β : Type _} (f : α → β) (a : α) :
    (Except.ok a : Except ε α).map f = .ok (f a) := rfl

theorem except_map_error {ε α β : Type _} (f : α → β) (e : ε) :
    (Except.error e : Except ε α).map f = .error e := rfl

theorem except_pure {ε α : Type _} (a : α) :
    (pure a : Except ε α) = .ok a := rfl

/-- **C4.** Supplying a weights array whose length differs from the data
array's makes `Hist.__init__` raise immediately with a descriptive
`ValueError`, whatever the other arguments are. -/
theorem hist_weights_length_mismatch_raises
    (data : List ℚ) (bins : BinSpec) (bin_range : Option (ℚ × ℚ))
    (counted : Bool) (w : List ℚ) (ie nm : Bool) (ht es : String)
    (lb : Option String) (hw : w.length ≠ data.length) :
    histInit data bins bin_range counted (some w) ie nm ht es lb =
      .error (.valueError "data and weights must have the same shape") := by
  simp [histInit, histCore, hw, except_bind_error, except_map_error]

/-- Witness for C4 at a concrete input: weights of length 1 against data of
length 2. -/
theorem hist_weights_length_mismatch_raises_witness :
    histInit [0, 1] (.count 2) none false (some [3]) false false
      "stepfilled" "ATLAS" none =
      .error (.valueError "data and weights must have the same shape") :=
  hist_weights_length_mismatch_raises [0, 1] (.count 2) none false [3]
    false false "stepfilled" "ATLAS" none (by decide)

/-- **C8.** Constructing a `Hist` with `counted=True` and an integer bin
count always raises a `ValueError`, whatever the other arguments are. -/
theorem hist_counted_int_bins_raises
    (data : List ℚ) (n : ℕ) (bin_range : Option (ℚ × ℚ))
    (weights : Option (List ℚ)) (ie nm : Bool) (ht es : String)
    (lb : Option String) :
    ∃ msg, histInit data (.count n) bin_range true weights ie nm ht es lb =
      .error (.valueError msg) := by
  cases weights with
  | none => exact ⟨_, rfl⟩
  | some w =>
    by_cases hw : w.length = data.length
    · refine ⟨"Passed in bins, which is an int, while setting counted=True. Ensure an arraylike of binedges is passed.", ?_⟩
      simp [histInit, histCore, hw, except_bind_ok, except_map_error]
    · refine ⟨"data and weights must have the same shape", ?_⟩
      simp [histInit, histCore, hw, except_bind_error, except_map_error]

/-- The pre-counted success path of `Hist.__init__`'s computation part,
with no weights supplied. -/
theorem histCore_counted_none_ok (data e : List ℚ) (br : Option (ℚ × ℚ))
    (ie : Bool) (ht es : String) (lb : Option String)
    (heq : (data.length : ℤ) = (e.length : ℤ) - 1) :
    histCore data (.edges e) br true none ie ht es lb =
      .ok ⟨data, e, if ie then some (data.map (fun x => x ^ 2)) else none,
        List.replicate data.length 1, true, false, ht, es, lb⟩ := by
  simp [histCore, heq, except_bind_ok]

/-- The pre-counted success path of `Hist.__init__`'s computation part,
with a well-shaped weights array supplied. -/
theorem histCore_counted_some_ok (data e w : List ℚ) (br : Option (ℚ × ℚ))
    (ie : Bool) (ht es : String) (lb : Option String)
    (hw : w.length = data.length)
    (heq : (data.length : ℤ) = (e.length : ℤ) - 1) :
    histCore data (.edges e) br true (some w) ie ht es lb =
      .ok ⟨data, e, if ie then some (w.map ratSqrt) else none,
        w, true, false, ht, es, lb⟩ := by
  simp [histCore, hw, heq, except_bind_ok]

/-- **C9.** In pre-counted mode with an explicit bin-edge array:
a data array whose length is not `len(bins) - 1` raises a `ValueError`;
matching lengths (with well-shaped weights) are accepted, and the
constructed histogram satisfies the invariant that the count-array length
equals the bin-edge count minus 1. -/
theorem hist_counted_length_check
    (data e : List ℚ) (bin_range : Option (ℚ × ℚ))
    (weights : Option (List ℚ)) (ie nm : Bool) (ht es : String)
    (lb : Option String)
    (hw : ∀ w, weights = some w → w.length = data.length) :
    ((data.length : ℤ) ≠ (e.length : ℤ) - 1 →
      ∃ msg, histInit data (.edges e) bin_range true weights ie nm ht es lb =
        .error (.valueError msg)) ∧
    ((data.length : ℤ) = (e.length : ℤ) - 1 →
      ∃ h, histInit data (.edges e) bin_range true weights ie nm ht es lb =
          .ok h ∧ (h.data.length : ℤ) = (h.bins.length : ℤ) - 1) := by
  constructor
  · intro hne
    refine ⟨"Specified counted=True, but length of the data array is not the length of the bin edges - 1.", ?_⟩
    cases weights with
    | none =>
      simp [histInit, histCore, hne, except_bind_ok, except_map_error]
    | some w =>
      simp [histInit, histCore, hw w rfl, hne, except_bind_ok,
        except_map_error]
  · intro heq
    cases weights with
    | none =>
      have hc := histCore_counted_none_ok data e bin_range ie ht es lb heq
      cases nm with
      | false =>
        refine ⟨⟨data, e, if ie then some (data.map (fun x => x ^ 2)) else none,
          List.replicate data.length 1, true, false, ht, es, lb⟩, ?_, ?_⟩
        · simp [histInit, hc, except_map_ok]
        · simpa using heq
      | true =>
        refine ⟨normalizeHist ⟨data, e,
          if ie then some (data.map (fun x => x ^ 2)) else none,
          List.replicate data.length 1, true, true, ht, es, lb⟩, ?_, ?_⟩
        · simp [histInit, hc, except_map_ok]
        · simpa [normalizeHist] using heq
    | some w =>
      have hc := histCore_counted_some_ok data e w bin_range ie ht es lb
        (hw w rfl) heq
      cases nm with
      | false =>
        refine ⟨⟨data, e, if ie then some (w.map ratSqrt) else none,
          w, true, false, ht, es, lb⟩, ?_, ?_⟩
        · simp [histInit, hc, except_map_ok]
        · simpa using heq
      | true =>
        refine ⟨normalizeHist ⟨data, e,
          if ie then some (w.map ratSqrt) else none,
          w, true, true, ht, es, lb⟩, ?_, ?_⟩
        · simp [histInit, hc, except_map_ok]
        · simpa [normalizeHist] using heq

/-- Witness for C9 at concrete inputs: 2 counts against 4 edges raise, and
2 counts against 3 edges are accepted with the length invariant. -/
theorem hist_counted_length_check_witness :
    (((2 : ℤ) ≠ (4 : ℤ) - 1 →
      ∃ msg, histInit [1, 2] (.edges [0, 1, 2, 3]) none true none false false
        "stepfilled" "ATLAS" none = .error (.valueError msg))) ∧
    (((2 : ℤ) = (4 : ℤ) - 1 →
      ∃ h, histInit [1, 2] (.edges [0, 1, 2, 3]) none true none false false
          "stepfilled" "ATLAS" none = .ok h ∧
        (h.data.length : ℤ) = (h.bins.length : ℤ) - 1)) ∧
    ((2 : ℤ) = (3 : ℤ) - 1 →
      ∃ h, histInit [1, 2] (.edges [0, 1, 2]) none true none false false
          "stepfilled" "ATLAS" none = .ok h ∧
        (h.data.length : ℤ) = (h.bins.length : ℤ) - 1) :=
  ⟨(hist_counted_length_check [1, 2] [0, 1, 2, 3] none none false false
      "stepfilled" "ATLAS" none nofun).1,
   (hist_counted_length_check [1, 2] [0, 1, 2, 3] none none false false
      "stepfilled" "ATLAS" none nofun).2,
   (hist_counted_length_check [1, 2] [0, 1, 2] none none false false
      "stepfilled" "ATLAS" none nofun).2⟩

theorem sum_map_add {α : Type _} (l : List α) (f g : α → ℚ) :
    (l.map fun x => f x + g x).sum = (l.map f).sum + (l.map g).sum := by
  induction l with
  | nil => simp
  | cons a l ih =>
    simp only [List.map_cons, List.sum_cons, ih]
    ring

theorem sum_map_zero {α : Type _} (l : List α) :
    (l.map fun _ => (0 : ℚ)).sum = 0 := by
  induction l with
  | nil => simp
  | cons a l ih => simp [ih]

theorem sum_range_ite (m k : ℕ) (w : ℚ) :
    ((List.range m).map fun j => if k = j then w else 0).sum =
      if k < m then w else 0 := by
  induction m with
  | zero => simp
  | succ m ih =>
    rw [List.range_succ, List.map_append, List.sum_append, ih]
    by_cases h : k < m
    · have h1 : k ≠ m := Nat.ne_of_lt h
      have h2 : k < m + 1 := Nat.lt_succ_of_lt h
      simp [h, h1, h2]
    · by_cases h2 : k = m
      · simp [h, h2]
      · have h3 : ¬k < m + 1 := by omega
        simp [h, h2, h3]

theorem getLastD_cons_mem {α : Type _} (a : α) (l : List α) (d : α) :
    (a :: l).getLastD d ∈ a :: l := by
  induction l generalizing a d with
  | nil => simp
  | cons b l ih =>
    rw [List.getLastD_cons]
    exact List.mem_cons_of_mem a (ih b a)

/-- A sample is assigned only indices of actual bins: `binIndex` never
exceeds the bin count. -/
theorem binIndex_lt (edges : List ℚ) (x : ℚ) (j : ℕ)
    (h : binIndex edges x = some j) : j < edges.length - 1 := by
  match edges with
  | [] => simp [binIndex] at h
  | [e] => simp [binIndex] at h
  | e₀ :: e₁ :: rest =>
    simp only [binIndex] at h
    split_ifs at h with h1 h2
    · injection h with h
      subst h
      simp only [List.length_cons]
      omega
    · injection h with h
      subst h
      have hmem : (e₀ :: e₁ :: rest).getLastD 0 ∈ e₀ :: e₁ :: rest :=
        getLastD_cons_mem e₀ (e₁ :: rest) 0
      have hxlt : x < (e₀ :: e₁ :: rest).getLastD 0 := by
        push_neg at h1
        exact lt_of_le_of_ne h1.2 h2
      have hcount : (e₀ :: e₁ :: rest).countP (fun e => decide (e ≤ x)) <
          (e₀ :: e₁ :: rest).length := by
        have hle := List.countP_le_length (p := fun e => decide (e ≤ x))
          (l := e₀ :: e₁ :: rest)
        rcases Nat.lt_or_ge ((e₀ :: e₁ :: rest).countP (fun e => decide (e ≤ x)))
          (e₀ :: e₁ :: rest).length with hlt | hge
        · exact hlt
        · exfalso
          have hcl : (e₀ :: e₁ :: rest).countP (fun e => decide (e ≤ x)) =
              (e₀ :: e₁ :: rest).length := le_antisymm hle hge
          have hall := List.countP_eq_length.mp hcl _ hmem
          simp only [decide_eq_true_eq] at hall
          exact absurd hall (not_le.mpr hxlt)
      simp only [List.length_cons] at hcount ⊢
      omega

/-- A sample lying between the first and last edges is always assigned a
bin. -/
theorem binIndex_isSome (edges : List ℚ) (x : ℚ) (hlen : 2 ≤ edges.length)
    (h₀ : edges.headI ≤ x) (h₁ : x ≤ edges.getLastD 0) :
    (binIndex edges x).isSome = true := by
  match edges with
  | [] => simp at hlen
  | [e] => simp at hlen
  | e₀ :: e₁ :: rest =>
    have hc : ¬(x < e₀ ∨ (e₀ :: e₁ :: rest).getLastD 0 < x) := by
      simp only [not_or, not_lt]
      exact ⟨by simpa using h₀, h₁⟩
    simp only [binIndex]
    rw [if_neg hc]
    split <;> simp

/-- Double counting: the total of the per-bin counts is the total weight of
the samples that land in some bin. -/
theorem histCounts_sum (edges : List ℚ) (sw : List (ℚ × ℚ)) :
    (histCounts edges sw).sum =
      (sw.map fun p => if (binIndex edges p.1).isSome then p.2 else 0).sum := by
  induction sw with
  | nil =>
    have h0 : (List.range (edges.length - 1)).map (binWeight edges []) =
        (List.range (edges.length - 1)).map fun _ => (0 : ℚ) :=
      List.map_congr_left fun j _ => by simp [binWeight]
    simp [histCounts, h0, sum_map_zero]
  | cons p sw ih =>
    have hbw : histCounts edges (p :: sw) = (List.range (edges.length - 1)).map
        (fun j => (if binIndex edges p.1 = some j then p.2 else 0) +
          binWeight edges sw j) := by
      unfold histCounts
      exact List.map_congr_left fun j _ => by simp [binWeight]
    rw [hbw, sum_map_add]
    rw [show ((List.range (edges.length - 1)).map (binWeight edges sw)).sum =
      (histCounts edges sw).sum from rfl, ih]
    simp only [List.map_cons, List.sum_cons]
    congr 1
    cases hbi : binIndex edges p.1 with
    | none => simp [hbi, sum_map_zero]
    | some k =>
      have hk := binIndex_lt edges p.1 k hbi
      simp only [hbi, Option.some.injEq, Option.isSome_some, if_true]
      rw [sum_range_ite]
      simp [hk]

theorem foldl_min_le_init (l : List ℚ) (a : ℚ) : l.foldl min a ≤ a := by
  induction l generalizing a with
  | nil => simp
  | cons b l ih => exact le_trans (ih (min a b)) (min_le_left a b)

theorem foldl_min_le_mem (l : List ℚ) (a x : ℚ) (hx : x ∈ l) :
    l.foldl min a ≤ x := by
  induction l generalizing a with
  | nil => cases hx
  | cons b l ih =>
    rcases List.mem_cons.mp hx with rfl | hx'
    · exact le_trans (foldl_min_le_init l (min a x)) (min_le_right a x)
    · exact ih (min a b) hx'

theorem init_le_foldl_max (l : List ℚ) (a : ℚ) : a ≤ l.foldl max a := by
  induction l generalizing a with
  | nil => simp
  | cons b l ih => exact le_trans (le_max_left a b) (ih (max a b))

theorem mem_le_foldl_max (l : List ℚ) (a x : ℚ) (hx : x ∈ l) :
    x ≤ l.foldl max a := by
  induction l generalizing a with
  | nil => cases hx
  | cons b l ih =>
    rcases List.mem_cons.mp hx with rfl | hx'
    · exact le_trans (le_max_right a x) (init_le_foldl_max l (max a x))
    · exact ih (max a b) hx'

theorem npMin_le (l : List ℚ) (x : ℚ) (hx : x ∈ l) : npMin l ≤ x := by
  match l with
  | [] => cases hx
  | y :: ys =>
    rcases List.mem_cons.mp hx with rfl | hx'
    · exact foldl_min_le_init ys x
    · exact foldl_min_le_mem ys y x hx'

theorem le_npMax (l : List ℚ) (x : ℚ) (hx : x ∈ l) : x ≤ npMax l := by
  match l with
  | [] => cases hx
  | y :: ys =>
    rcases List.mem_cons.mp hx with rfl | hx'
    · exact init_le_foldl_max ys x
    · exact mem_le_foldl_max ys y x hx'

theorem npMin_le_npMax (l : List ℚ) (hl : l ≠ []) : npMin l ≤ npMax l := by
  match l with
  | [] => exact absurd rfl hl
  | y :: ys =>
    exact le_trans (npMin_le (y :: ys) y (by simp)) (le_npMax (y :: ys) y (by simp))

/-- With no requested range, `np.histogram`'s outer edges always succeed
and enclose every sample. -/
theorem npHistRange_none_ok (data : List ℚ) :
    ∃ lo hi, npHistRange data none = .ok (lo, hi) ∧
      ∀ x ∈ data, lo ≤ x ∧ x ≤ hi := by
  by_cases hd : data = []
  · refine ⟨0, 1, ?_, ?_⟩
    · norm_num [npHistRange, hd]
    · simp [hd]
  · have h1 : ¬(npMax data < npMin data) := not_lt.mpr (npMin_le_npMax data hd)
    by_cases he : npMin data = npMax data
    · refine ⟨npMin data - 1 / 2, npMax data + 1 / 2, ?_, ?_⟩
      · simp [npHistRange, hd, h1, he]
      · intro x hx
        constructor
        · have := npMin_le data x hx
          linarith
        · have := le_npMax data x hx
          linarith
    · refine ⟨npMin data, npMax data, ?_,
        fun x hx => ⟨npMin_le data x hx, le_npMax data x hx⟩⟩
      simp [npHistRange, hd, h1, he]

theorem linEdges_length (lo hi : ℚ) (n : ℕ) : (linEdges lo hi n).length = n + 1 := by
  rw [linEdges, List.length_map, List.length_range]

theorem linEdges_headI (lo hi : ℚ) (n : ℕ) : (linEdges lo hi n).headI = lo := by
  rw [linEdges, List.range_succ_eq_map]
  simp

theorem linEdges_getLastD (lo hi : ℚ) (n : ℕ) (hn : n ≠ 0) :
    (linEdges lo hi n).getLastD 0 = hi := by
  rw [linEdges, List.range_succ, List.map_append, List.getLastD_eq_getLast?]
  simp only [List.map_cons, List.map_nil, List.getLast?_concat, Option.getD_some]
  have hnq : (n : ℚ) ≠ 0 := Nat.cast_ne_zero.mpr hn
  field_simp

/-- `np.histogram` with a positive integer bin count and no requested
range: succeeds with `n+1` equally spaced edges, and the counts over a
weights array of the data's length sum to the weights' sum (every sample
lands in a bin). -/
theorem npHistogram_count_none_ok (data : List ℚ) (n : ℕ) (wts : List ℚ)
    (hn : n ≠ 0) (hlen : wts.length = data.length) :
    ∃ lo hi, npHistogram data (.count n) none wts =
        .ok (histCounts (linEdges lo hi n) (data.zip wts), linEdges lo hi n) ∧
      (histCounts (linEdges lo hi n) (data.zip wts)).sum = wts.sum := by
  obtain ⟨lo, hi, hr, hbounds⟩ := npHistRange_none_ok data
  refine ⟨lo, hi, ?_, ?_⟩
  · simp [npHistogram, hn, hr, except_bind_ok]
  · rw [histCounts_sum]
    have hall : ∀ p ∈ data.zip wts,
        ((if (binIndex (linEdges lo hi n) p.1).isSome then p.2 else 0) : ℚ) =
          p.2 := by
      intro p hp
      have hx := (List.of_mem_zip hp).1
      have hb := hbounds p.1 hx
      have h2 : 2 ≤ (linEdges lo hi n).length := by
        rw [linEdges_length]
        omega
      have hs := binIndex_isSome (linEdges lo hi n) p.1 h2
        (by rw [linEdges_headI]; exact hb.1)
        (by rw [linEdges_getLastD lo hi n hn]; exact hb.2)
      simp [hs]
    rw [List.map_congr_left hall, List.map_snd_zip data wts hlen.le]

/-- **C1.** Constructing a `Hist` from raw data with a positive integer bin
count (and, when supplied, a well-shaped weights array) succeeds; the bin
edges number `n+1` and the counts sum to the number of samples when no
weights are supplied, or to the sum of the weights otherwise. -/
theorem hist_raw_int_bins_sums (data : List ℚ) (n : ℕ)
    (weights : Option (List ℚ)) (ie : Bool) (ht es : String)
    (lb : Option String) (hn : 0 < n)
    (hw : ∀ w, weights = some w → w.length = data.length) :
    ∃ h, histInit data (.count n) none false weights ie false ht es lb =
        .ok h ∧
      h.bins.length = n + 1 ∧
      h.data.sum = (match weights with
        | none => (data.length : ℚ)
        | some w => w.sum) := by
  cases weights with
  | none =>
    obtain ⟨lo, hi, hh, hsum⟩ := npHistogram_count_none_ok data n
      (List.replicate data.length (1 : ℚ)) (by omega) (by simp)
    cases ie with
    | false =>
      refine ⟨⟨histCounts (linEdges lo hi n)
          (data.zip (List.replicate data.length 1)), linEdges lo hi n, none,
          List.replicate data.length 1, false, false, ht, es, lb⟩, ?_, ?_, ?_⟩
      · simp [histInit, histCore, hh, except_bind_ok, except_map_ok, except_pure]
      · exact linEdges_length lo hi n
      · simpa using hsum
    | true =>
      refine ⟨⟨histCounts (linEdges lo hi n)
          (data.zip (List.replicate data.length 1)), linEdges lo hi n,
          some ((histCounts (linEdges lo hi n)
            (data.zip (List.replicate data.length 1))).map ratSqrt),
          List.replicate data.length 1, false, false, ht, es, lb⟩, ?_, ?_, ?_⟩
      · simp [histInit, histCore, hh, except_bind_ok, except_map_ok, except_pure]
      · exact linEdges_length lo hi n
      · simpa using hsum
  | some w =>
    have hwl := hw w rfl
    obtain ⟨lo, hi, hh, hsum⟩ := npHistogram_count_none_ok data n w
      (by omega) hwl
    cases ie with
    | false =>
      refine ⟨⟨histCounts (linEdges lo hi n) (data.zip w), linEdges lo hi n,
          none, w, false, false, ht, es, lb⟩, ?_, ?_, ?_⟩
      · simp [histInit, histCore, hwl, hh, except_bind_ok, except_map_ok,
          except_pure]
      · exact linEdges_length lo hi n
      · exact hsum
    | true =>
      obtain ⟨lo2, hi2, hh2, _⟩ := npHistogram_count_none_ok data n
        (w.map fun x => x ^ 2) (by omega) (by simp [hwl])
      refine ⟨⟨histCounts (linEdges lo hi n) (data.zip w), linEdges lo hi n,
          some ((histCounts (linEdges lo2 hi2 n)
            (data.zip (w.map fun x => x ^ 2))).map ratSqrt),
          w, false, false, ht, es, lb⟩, ?_, ?_, ?_⟩
      · simp [histInit, histCore, hwl, hh, hh2, except_bind_ok, except_map_ok,
          except_pure]
      · exact linEdges_length lo hi n
      · exact hsum

/-- Witness for C1 at a concrete input: three unweighted samples in two
bins give three edges and counts summing to 3. -/
theorem hist_raw_int_bins_sums_witness :
    ∃ h, histInit [0, 1, 2] (.count 2) none false none false false
        "stepfilled" "ATLAS" none = .ok h ∧
      h.bins.length = 2 + 1 ∧
      h.data.sum = ((3 : ℕ) : ℚ) :=
  hist_raw_int_bins_sums [0, 1, 2] 2 none false "stepfilled" "ATLAS" none
    (by decide) nofun

theorem sum_map_div (l : List ℚ) (s : ℚ) :
    (l.map fun c => c / s).sum = l.sum / s := by
  induction l with
  | nil => simp
  | cons a l ih => simp [ih, add_div]

/-- The computation part of `Hist.__init__` stores the `counted` argument
unchanged on the object. -/
theorem histCore_counted_flag (data : List ℚ) (bins : BinSpec)
    (br : Option (ℚ × ℚ)) (counted : Bool) (weights : Option (List ℚ))
    (ie : Bool) (ht es : String) (lb : Option String) (h' : Hist)
    (hc : histCore data bins br counted weights ie ht es lb = .ok h') :
    h'.counted = counted := by
  have step : ∀ wts : List ℚ,
      (if counted then
        match bins with
        | .count _ =>
          Except.error (PyError.valueError "Passed in bins, which is an int, while setting counted=True. Ensure an arraylike of binedges is passed.")
        | .edges e =>
          if (data.length : ℤ) ≠ (e.length : ℤ) - 1 then
            Except.error (PyError.valueError "Specified counted=True, but length of the data array is not the length of the bin edges - 1.")
          else
            let err : Option (List ℚ) :=
              if ie then
                some (match weights with
                  | some w => w.map ratSqrt
                  | none => data.map (fun x => x ^ 2))
              else none
            Except.ok (⟨data, e, err, wts, counted, false, ht, es, lb⟩ : Hist)
      else do
        let ce ← npHistogram data bins br wts
        let err ← if ie then
            match weights with
            | some w => do
              let e2 ← npHistogram data bins none (w.map (fun x => x ^ 2))
              pure (some (e2.1.map ratSqrt))
            | none => pure (some (ce.1.map ratSqrt))
          else pure none
        Except.ok (⟨ce.1, ce.2, err, wts, counted, false, ht, es, lb⟩ : Hist)) =
          .ok h' →
      h'.counted = counted := by
    intro wts hstep
    cases counted with
    | true =>
      rw [if_pos rfl] at hstep
      cases bins with
      | count n => simp at hstep
      | edges e =>
        simp only [] at hstep
        split at hstep
        · simp at hstep
        · injection hstep with hstep
          rw [← hstep]
    | false =>
      rw [if_neg (by simp)] at hstep
      cases hnp : npHistogram data bins br wts with
      | error ex =>
        rw [hnp, except_bind_error] at hstep
        simp at hstep
      | ok ce =>
        rw [hnp, except_bind_ok] at hstep
        simp only [] at hstep
        cases ie with
        | false =>
          rw [if_neg (by simp)] at hstep
          simp only [except_pure, except_bind_ok] at hstep
          injection hstep with hstep
          rw [← hstep]
        | true =>
          rw [if_pos rfl] at hstep
          cases weights with
          | none =>
            simp only [except_pure, except_bind_ok] at hstep
            injection hstep with hstep
            rw [← hstep]
          | some w =>
            cases hnp2 : npHistogram data bins none (w.map fun x => x ^ 2) with
            | error ex2 =>
              simp only [hnp2, except_bind_error] at hstep
              simp at hstep
            | ok e2 =>
              simp only [hnp2, except_bind_ok, except_pure] at hstep
              injection hstep with hstep
              rw [← hstep]
  cases weights with
  | none =>
    simp only [histCore, except_bind_ok] at hc
    exact step _ hc
  | some w =>
    by_cases hwl : w.length ≠ data.length
    · simp only [histCore, if_pos hwl, except_bind_error] at hc
      simp at hc
    · simp only [histCore, if_neg hwl, except_bind_ok] at hc
      exact step _ hc

/-- **C2 (amended).** Normalization divides the stored counts, and the
uncertainty array when present, by the total count sum in pre-counted mode
or the total weight sum in raw mode; consequently, for a non-empty raw
unweighted histogram over an integer bin count the normalized counts sum
to exactly 1.  (The sum-to-1 clause fails for explicit bin edges that
exclude samples; see the counterexample.) -/
theorem hist_normalize_semantics :
    (∀ (data : List ℚ) (bins : BinSpec) (br : Option (ℚ × ℚ))
        (counted : Bool) (weights : Option (List ℚ)) (ie : Bool)
        (ht es : String) (lb : Option String) (h h₀ : Hist),
      histInit data bins br counted weights ie true ht es lb = .ok h →
      histInit data bins br counted weights ie false ht es lb = .ok h₀ →
      h.data = h₀.data.map (fun c => c /
        (if counted then h₀.data.sum else h₀.weights.sum)) ∧
      h.err = h₀.err.map (fun e => e.map (fun v => v /
        (if counted then h₀.data.sum else h₀.weights.sum)))) ∧
    (∀ (data : List ℚ) (n : ℕ) (ie : Bool) (ht es : String)
        (lb : Option String), data ≠ [] → 0 < n →
      ∀ h, histInit data (.count n) none false none ie true ht es lb = .ok h →
      h.data.sum = 1) := by
  constructor
  · intro data bins br counted weights ie ht es lb h h₀ h1 h0
    unfold histInit at h1 h0
    cases hcc : histCore data bins br counted weights ie ht es lb with
    | error ex => rw [hcc, except_map_error] at h0; simp at h0
    | ok hcore =>
      rw [hcc, except_map_ok] at h1 h0
      have hflag := histCore_counted_flag data bins br counted weights ie
        ht es lb hcore hcc
      injection h1 with h1
      injection h0 with h0
      constructor
      · rw [← h1, ← h0]
        simp [normalizeHist, hflag]
      · rw [← h1, ← h0]
        simp [normalizeHist, hflag]
  · intro data n ie ht es lb hd hn h h1
    obtain ⟨lo, hi, hh, hsum⟩ := npHistogram_count_none_ok data n
      (List.replicate data.length (1 : ℚ)) (by omega) (by simp)
    have hlen0 : (data.length : ℚ) ≠ 0 := by
      have : data.length ≠ 0 := by
        simpa [List.length_eq_zero] using hd
      exact_mod_cast this
    have hrep : (List.replicate data.length (1 : ℚ)).sum = (data.length : ℚ) := by
      simp
    cases ie with
    | false =>
      have hcomp : histInit data (.count n) none false none false true ht es lb =
          .ok (normalizeHist ⟨histCounts (linEdges lo hi n)
            (data.zip (List.replicate data.length 1)), linEdges lo hi n, none,
            List.replicate data.length 1, false, true, ht, es, lb⟩) := by
        simp [histInit, histCore, hh, except_bind_ok, except_map_ok, except_pure]
      rw [hcomp] at h1
      injection h1 with h1
      rw [← h1]
      simp only [normalizeHist]
      rw [sum_map_div]
      simp only [Bool.false_eq_true, if_false]
      rw [hsum, hrep]
      exact div_self hlen0
    | true =>
      have hcomp : histInit data (.count n) none false none true true ht es lb =
          .ok (normalizeHist ⟨histCounts (linEdges lo hi n)
            (data.zip (List.replicate data.length 1)), linEdges lo hi n,
            some ((histCounts (linEdges lo hi n)
              (data.zip (List.replicate data.length 1))).map ratSqrt),
            List.replicate data.length 1, false, true, ht, es, lb⟩) := by
        simp [histInit, histCore, hh, except_bind_ok, except_map_ok, except_pure]
      rw [hcomp] at h1
      injection h1 with h1
      rw [← h1]
      simp only [normalizeHist]
      rw [sum_map_div]
      simp only [Bool.false_eq_true, if_false]
      rw [hsum, hrep]
      exact div_self hlen0

/-- Witness for C2 at concrete inputs: a pre-counted histogram's counts
(with no uncertainty) are divided by the count sum 3, and a normalized
raw unweighted single-sample histogram sums to 1. -/
theorem hist_normalize_semantics_witness :
    ((⟨[1/3, 2/3], [0, 1, 2], none, List.replicate 2 1, true, true, "s", "A",
        none⟩ : Hist).data =
      (⟨[1, 2], [0, 1, 2], none, List.replicate 2 1, true, false, "s", "A",
        none⟩ : Hist).data.map (fun c => c /
        (if true then (⟨[1, 2], [0, 1, 2], none, List.replicate 2 1, true,
          false, "s", "A", none⟩ : Hist).data.sum
        else (⟨[1, 2], [0, 1, 2], none, List.replicate 2 1, true, false, "s",
          "A", none⟩ : Hist).weights.sum)) ∧
      (⟨[1/3, 2/3], [0, 1, 2], none, List.replicate 2 1, true, true, "s", "A",
        none⟩ : Hist).err =
      (⟨[1, 2], [0, 1, 2], none, List.replicate 2 1, true, false, "s", "A",
        none⟩ : Hist).err.map (fun e => e.map (fun v => v /
        (if true then (⟨[1, 2], [0, 1, 2], none, List.replicate 2 1, true,
          false, "s", "A", none⟩ : Hist).data.sum
        else (⟨[1, 2], [0, 1, 2], none, List.replicate 2 1, true, false, "s",
          "A", none⟩ : Hist).weights.sum)))) ∧
    (⟨[1], [-(1/2), 1/2], none, [1], false, true, "s", "A", none⟩ :
      Hist).data.sum = 1 :=
  ⟨hist_normalize_semantics.1 [1, 2] (.edges [0, 1, 2]) none true none false
      "s" "A" none _ _
      (by norm_num [histInit, histCore, normalizeHist, except_bind_ok,
        except_map_ok])
      (by norm_num [histInit, histCore, except_bind_ok, except_map_ok]),
   hist_normalize_semantics.2 [0] 1 false "s" "A" none (by simp) (by norm_num)
      _
      (by norm_num [histInit, histCore, normalizeHist, npHistogram,
        npHistRange, npMin, npMax, linEdges, histCounts, binWeight, binIndex,
        List.range_succ, except_bind_ok, except_map_ok, except_pure,
        List.countP_cons])⟩

/-- **C2 (counterexample).** An unweighted raw histogram normalized over
explicit bin edges that exclude a sample: the normalized counts sum to
1/2, not 1 — normalization divides by the total weight sum, which counts
the excluded sample. -/
theorem hist_normalize_sum_counterexample :
    (histInit [0, 10] (.edges [0, 1]) none false none false true "stepfilled"
        "ATLAS" none).map (fun h => h.data.sum) = .ok (1/2) ∧
      ((1 : ℚ)/2) ≠ 1 := by
  constructor
  · norm_num [histInit, histCore, normalizeHist, npHistogram, npHistRange,
      histCounts, binWeight, binIndex, monotoneEdges, List.range_succ,
      except_bind_ok, except_map_ok, except_pure, List.countP_cons,
      show List.replicate 2 (1 : ℚ) = [1, 1] from rfl]
  · norm_num

/-- **C10.** `HistPlot.add_data` is not atomic on error: called with a list
of arguments whose prefix is valid and whose next element is invalid, it
raises `TypeError` at that first invalid object, and the valid prefix has
already been appended to the dataset list and remains there. -/
theorem histPlotAddData_partial_append
    (ds pre : List ObjKind) (x : ObjKind) (rest : List ObjKind)
    (hpre : ∀ o ∈ pre, allowedType o = true) (hx : allowedType x = false) :
    histPlotAddData ds (pre ++ x :: rest) =
      (ds ++ pre, some (.typeError (invalidTypeMsg x))) := by
  induction pre generalizing ds with
  | nil => simp [histPlotAddData, hx]
  | cons o pre ih =>
    have ho : allowedType o = true := hpre o (by simp)
    have hpre' : ∀ o' ∈ pre, allowedType o' = true :=
      fun o' h => hpre o' (by simp [h])
    simp only [List.cons_append, histPlotAddData, ho, if_true, List.append_eq]
    rw [ih (ds ++ [o]) hpre']
    simp

/-- Witness for C10 at a concrete input: a valid `Hist` object followed by
an invalid `Step` object leaves the `Hist` appended and raises on the
`Step`. -/
theorem histPlotAddData_partial_append_witness :
    histPlotAddData [] [ObjKind.hist, ObjKind.step] =
      ([ObjKind.hist], some (.typeError (invalidTypeMsg ObjKind.step))) :=
  histPlotAddData_partial_append [] [ObjKind.hist] ObjKind.step []
    (by decide) (by decide)

theorem reverse_flatten_map {α β : Type _} (l : List α) (f : α → List β) :
    ((l.map f).flatten).reverse = (l.reverse.map fun x => (f x).reverse).flatten := by
  induction l with
  | nil => simp
  | cons a l ih => simp [List.reverse_append, ih]

/-- The vertex list built by the draw loops equals the spec's description
of the polygon. -/
theorem atlasVerts_eq_atlasVertsSpec (bin_edges data err : List ℚ) :
    atlasVerts bin_edges data err = atlasVertsSpec bin_edges data err := by
  unfold atlasVerts atlasVertsSpec
  congr 1
  rw [reverse_flatten_map]
  exact congrArg List.flatten (List.map_congr_left fun j _ => by simp)

/-- **C7.** For a `Hist` with an uncertainty array and ATLAS error style,
a successful draw renders the hatched polygon whose vertices trace the
upper envelope `counts + err` left-to-right, two points per bin at the
bin's edges, and then the lower envelope `counts - err` right-to-left. -/
theorem hist_draw_atlas_polygon (h : Hist) (err : List ℚ) (out : DrawOutcome)
    (herr : h.err = some err) (hstyle : h.err_style = "ATLAS")
    (hdraw : histDraw h = .ok out) :
    out.errFeature = some (.atlasPoly (atlasVertsSpec h.bins h.data err)) := by
  simp only [histDraw, herr, hstyle] at hdraw
  split at hdraw <;>
    first
    | (injection hdraw with hdraw
       rw [← hdraw]
       simp [atlasVerts_eq_atlasVertsSpec])
    | simp at hdraw

/-- Witness for C7 at a concrete input: bins `[0,1,2]`, counts `[1,2]`,
errors `[1,1]` give the eight-vertex polygon traced top
left-to-right then bottom right-to-left. -/
theorem hist_draw_atlas_polygon_witness :
    (⟨[], some (.atlasPoly [(0, 2), (1, 2), (1, 3), (2, 3), (2, 1), (1, 1),
        (1, 0), (0, 0)])⟩ : DrawOutcome).errFeature =
      some (.atlasPoly (atlasVertsSpec [0, 1, 2] [1, 2] [1, 1])) :=
  hist_draw_atlas_polygon
    ⟨[1, 2], [0, 1, 2], some [1, 1], [1, 1], false, false, "step", "ATLAS",
      none⟩ [1, 1] _ rfl rfl
    (by norm_num [histDraw, atlasVerts, List.range_succ, List.getD])

/-- **C3 (amended).** Unrecognized legend presets, grid presets and error
styles degrade gracefully: `decorate_legend` warns and sets no legend,
`grid_adjuster` warns and enables no grid, and `Hist.draw` warns and skips
the uncertainty rendering without raising; an unrecognized `hist_type`,
however, makes `Hist.draw` raise a `ValueError` (see the
counterexample). -/
theorem unrecognized_names_degrade :
    (∀ s : String, s ≠ "default inside" → s ≠ "default outside" →
      s ≠ "fancy inside" → s ≠ "fancy_outside" →
      decorate_legend (.preset s) =
        ⟨false, ["Warning: " ++ s ++ " is an invalid legend settings type! Check documentation for available legend presets."]⟩) ∧
    (∀ p : String,
      (pySplit (Char.ofNat 45) p).all
        (fun g => g = "line" || g = "dash" || g = "dot") = false →
      grid_adjuster p =
        ⟨none, none, ["Warning: invalid grid option requested. Types are only line, dash, and dot. Disabling grid..."]⟩) ∧
    (∀ (h : Hist) (err : List ℚ), h.err = some err →
      (h.hist_type = "step" ∨ h.hist_type = "stepfilled" ∨
        h.hist_type = "bar" ∨ h.hist_type = "point") →
      h.err_style ≠ "ATLAS" → h.err_style ≠ "fillbetween" →
      h.err_style ≠ "errorbar" →
      histDraw h = .ok ⟨["Warning: " ++ h.err_style ++ " not a error style.",
        "Valid error types are ATLAS, fillbetween, errorbar."], none⟩) := by
  refine ⟨?_, ?_, ?_⟩
  · intro s h1 h2 h3 h4
    unfold decorate_legend
    split <;> simp_all
  · intro p hall
    simp [grid_adjuster, hall]
  · intro h err herr hht he1 he2 he3
    rcases hht with hh | hh | hh | hh <;>
      simp only [histDraw, hh, herr]

/-- Witness for C3 at concrete inputs: the preset `"fancy"`, the grid
preset `"wavy"`, and the error style `"bands"` each warn and skip. -/
theorem unrecognized_names_degrade_witness :
    decorate_legend (.preset "fancy") =
      ⟨false, ["Warning: " ++ "fancy" ++ " is an invalid legend settings type! Check documentation for available legend presets."]⟩ ∧
    grid_adjuster "wavy" =
      ⟨none, none, ["Warning: invalid grid option requested. Types are only line, dash, and dot. Disabling grid..."]⟩ ∧
    histDraw ⟨[1], [0, 1], some [1], [1], false, false, "step", "bands",
        none⟩ =
      .ok ⟨["Warning: " ++ "bands" ++ " not a error style.",
        "Valid error types are ATLAS, fillbetween, errorbar."], none⟩ :=
  ⟨unrecognized_names_degrade.1 "fancy" (by decide) (by decide) (by decide)
      (by decide),
   unrecognized_names_degrade.2.1 "wavy" (by decide),
   unrecognized_names_degrade.2.2
     ⟨[1], [0, 1], some [1], [1], false, false, "step", "bands", none⟩ [1]
     rfl (Or.inl rfl) (by decide) (by decide) (by decide)⟩

/-- **C3 (counterexample).** An unrecognized `hist_type` makes `Hist.draw`
raise a `ValueError` instead of warning and skipping. -/
theorem hist_draw_unknown_type_raises :
    histDraw ⟨[1], [0, 1], none, [1], false, false, "fancy", "ATLAS",
        none⟩ =
      .error (.valueError ("fancy" ++
        " is an invalid histogram type. Choose either step, stepfilled, or bar.")) := by
  rfl

/-- Closed form of the `HistPlot.plot` drawing loop from any starting
state. -/
theorem histPlotLoop_foldl (ds : List PlotObjS) (st : HistLoopState) :
    ds.foldl histPlotStep st =
      ⟨st.drawn ++ ds,
       st.legend_handles ++ ds.filter (fun d => labelTruthy d.label),
       st.legend_labels ++ (ds.filter (fun d => labelTruthy d.label)).map
         (fun d => d.label.getD "")⟩ := by
  induction ds generalizing st with
  | nil =>
    cases st
    simp
  | cons d ds ih =>
    rw [List.foldl_cons, ih]
    cases hl : labelTruthy d.label with
    | false => simp [histPlotStep, hl, List.filter_cons]
    | true => simp [histPlotStep, hl, List.filter_cons]

/-- Closed form of the `BasicPlot.plot` drawing loop from any starting
state. -/
theorem basicPlotLoop_foldl (ds : List PlotObjS) (st : BasicLoopState) :
    ds.foldl basicPlotStep st =
      ⟨st.drawn ++ ds, st.legend_handles ++ ds,
       st.legend_labels ++ ds.map (fun d => d.label)⟩ := by
  induction ds generalizing st with
  | nil =>
    cases st
    simp
  | cons d ds ih =>
    rw [List.foldl_cons, ih]
    simp [basicPlotStep]

/-- **C5 (amended).** Both plot loops draw the added objects in insertion
order.  `HistPlot.plot` collects (handle, label) pairs only for truthy
labels (neither `None` nor empty), in insertion order; `BasicPlot.plot`
collects a (handle, label) pair for every object unconditionally,
including `None` and empty labels. -/
theorem plot_loops_insertion_order (datasets : List PlotObjS) :
    (histPlotLoop datasets).drawn = datasets ∧
    (histPlotLoop datasets).legend_handles =
      datasets.filter (fun d => labelTruthy d.label) ∧
    (histPlotLoop datasets).legend_labels =
      (datasets.filter (fun d => labelTruthy d.label)).map
        (fun d => d.label.getD "") ∧
    (basicPlotLoop datasets).drawn = datasets ∧
    (basicPlotLoop datasets).legend_handles = datasets ∧
    (basicPlotLoop datasets).legend_labels =
      datasets.map (fun d => d.label) := by
  unfold histPlotLoop basicPlotLoop
  rw [histPlotLoop_foldl, basicPlotLoop_foldl]
  simp

/-- **C5 (counterexample).** `BasicPlot.plot` collects a (handle, label)
pair even for an object whose label is the empty string (not truthy), so
pairs are not collected "only for non-empty labels". -/
theorem basicPlot_empty_label_collected :
    labelTruthy (some "") = false ∧
    (basicPlotLoop [⟨some "", 0⟩]).legend_handles = [⟨some "", 0⟩] ∧
    (basicPlotLoop [⟨some "", 0⟩]).legend_labels = [some ""] := by
  exact ⟨by decide, by decide, by decide⟩

theorem ratFloor_eq_intFloor (q : ℚ) : q.floor = ⌊q⌋ := by
  rw [Rat.floor_def', Rat.floor_def]

theorem natLog_floor_le (x : ℚ) (hx : 1 ≤ x) :
    (10 : ℚ) ^ Nat.log 10 x.floor.toNat ≤ x ∧
      x < (10 : ℚ) ^ (Nat.log 10 x.floor.toNat + 1) := by
  have hfl : (1 : ℤ) ≤ x.floor := by
    rw [ratFloor_eq_intFloor, Int.le_floor]
    exact_mod_cast hx
  have hmz : ((x.floor.toNat : ℤ)) = x.floor := Int.toNat_of_nonneg (by omega)
  have hm1 : x.floor.toNat ≠ 0 := by omega
  have h1 : 10 ^ Nat.log 10 x.floor.toNat ≤ x.floor.toNat :=
    Nat.pow_log_le_self 10 hm1
  have h2 : x.floor.toNat < 10 ^ (Nat.log 10 x.floor.toNat + 1) :=
    Nat.lt_pow_succ_log_self (by norm_num) x.floor.toNat
  constructor
  · have hz : ((10 ^ Nat.log 10 x.floor.toNat : ℕ) : ℤ) ≤ x.floor := by
      rw [← hmz]
      exact_mod_cast h1
    rw [ratFloor_eq_intFloor] at hz
    have hq := Int.le_floor.mp hz
    calc (10 : ℚ) ^ Nat.log 10 x.floor.toNat
        = (((10 ^ Nat.log 10 x.floor.toNat : ℕ) : ℤ) : ℚ) := by push_cast; ring
      _ ≤ x := hq
  · have hz : x.floor + 1 ≤ ((10 ^ (Nat.log 10 x.floor.toNat + 1) : ℕ) : ℤ) := by
      rw [← hmz]
      exact_mod_cast h2
    rw [ratFloor_eq_intFloor] at hz
    calc x < ⌊x⌋ + 1 := Int.lt_floor_add_one x
      _ ≤ (((10 ^ (Nat.log 10 x.floor.toNat + 1) : ℕ) : ℤ) : ℚ) := by
          exact_mod_cast hz
      _ = (10 : ℚ) ^ (Nat.log 10 x.floor.toNat + 1) := by push_cast; ring

theorem ceilLog10ge1_char (y : ℚ) (hy : 1 ≤ y) :
    (10 : ℚ) ^ (ceilLog10ge1 y - 1) < y ∧ y ≤ (10 : ℚ) ^ ceilLog10ge1 y := by
  obtain ⟨h1, h2⟩ := natLog_floor_le y hy
  unfold ceilLog10ge1
  set f := Nat.log 10 y.floor.toNat with hf
  by_cases hle : y ≤ (10 : ℚ) ^ f
  · rw [if_pos hle]
    have heq : y = (10 : ℚ) ^ f := le_antisymm hle h1
    constructor
    · rw [heq, ← zpow_natCast (10 : ℚ) f]
      exact zpow_lt_zpow_right₀ (by norm_num) (by omega)
    · rw [heq, ← zpow_natCast (10 : ℚ) f]
  · rw [if_neg hle]
    push_neg at hle
    constructor
    · have harith : (f : ℤ) + 1 - 1 = (f : ℤ) := by ring
      rw [harith, zpow_natCast]
      exact hle
    · have harith : (f : ℤ) + 1 = ((f + 1 : ℕ) : ℤ) := by push_cast; ring
      rw [harith, zpow_natCast]
      exact le_of_lt h2

theorem floorLog10_char (x : ℚ) (hx : 0 < x) :
    (10 : ℚ) ^ floorLog10 x ≤ x ∧ x < (10 : ℚ) ^ (floorLog10 x + 1) := by
  unfold floorLog10
  by_cases h1 : 1 ≤ x
  · rw [if_pos h1]
    obtain ⟨ha, hb⟩ := natLog_floor_le x h1
    constructor
    · rw [zpow_natCast]
      exact ha
    · have harith : (Nat.log 10 x.floor.toNat : ℤ) + 1 =
          ((Nat.log 10 x.floor.toNat + 1 : ℕ) : ℤ) := by push_cast; ring
      rw [harith, zpow_natCast]
      exact hb
  · rw [if_neg h1]
    push_neg at h1
    have hinv : 1 ≤ 1 / x := one_le_one_div hx (le_of_lt h1)
    obtain ⟨hc1, hc2⟩ := ceilLog10ge1_char (1 / x) hinv
    have h10c : (0 : ℚ) < (10 : ℚ) ^ ceilLog10ge1 (1 / x) :=
      zpow_pos (by norm_num) _
    have h10c1 : (0 : ℚ) < (10 : ℚ) ^ (ceilLog10ge1 (1 / x) - 1) :=
      zpow_pos (by norm_num) _
    constructor
    · have := (one_div_le hx h10c).mp hc2
      rw [zpow_neg]
      rw [← one_div]
      exact this
    · have := (lt_one_div h10c1 hx).mp hc1
      have harith : -ceilLog10ge1 (1 / x) + 1 = -(ceilLog10ge1 (1 / x) - 1) := by
        ring
      rw [harith, zpow_neg, ← one_div]
      exact this

theorem ceilLog10_char (x : ℚ) (hx : 0 < x) :
    (10 : ℚ) ^ (ceilLog10 x - 1) < x ∧ x ≤ (10 : ℚ) ^ ceilLog10 x := by
  unfold ceilLog10
  by_cases h1 : 1 ≤ x
  · rw [if_pos h1]
    exact ceilLog10ge1_char x h1
  · rw [if_neg h1]
    push_neg at h1
    have hinv : 1 ≤ 1 / x := one_le_one_div hx (le_of_lt h1)
    obtain ⟨ha, hb⟩ := natLog_floor_le (1 / x) hinv
    have h10g : (0 : ℚ) < (10 : ℚ) ^ (Nat.log 10 (1 / x).floor.toNat + 1) := by
      positivity
    have h10g' : (0 : ℚ) < (10 : ℚ) ^ Nat.log 10 (1 / x).floor.toNat := by
      positivity
    constructor
    · have := (one_div_lt hx h10g).mp hb
      have harith : -(Nat.log 10 (1 / x).floor.toNat : ℤ) - 1 =
          -((Nat.log 10 (1 / x).floor.toNat + 1 : ℕ) : ℤ) := by push_cast; ring
      rw [harith, zpow_neg, zpow_natCast, ← one_div]
      exact this
    · have := (le_one_div h10g' hx).mp ha
      rw [zpow_neg, zpow_natCast, ← one_div]
      exact this

/-- **C6.** `compute_auto_limits` with `log=False` returns exactly
`[min - 0.04*(max - min), max + 0.04*(max - min)]`; with `log=True` it
returns the greatest power of ten at most the overall minimum and the
least power of ten at least the overall maximum. -/
theorem compute_auto_limits_spec (min_arr max_arr : List ℚ)
    (hmin : min_arr ≠ []) (hmax : max_arr ≠ []) :
    compute_auto_limits min_arr max_arr false =
      [npMin min_arr - 0.04 * (npMax max_arr - npMin min_arr),
       npMax max_arr + 0.04 * (npMax max_arr - npMin min_arr)] ∧
    (0 < npMin min_arr → 0 < npMax max_arr →
      ∃ a b : ℤ, compute_auto_limits min_arr max_arr true =
          [(10 : ℚ) ^ a, (10 : ℚ) ^ b] ∧
        (10 : ℚ) ^ a ≤ npMin min_arr ∧ npMin min_arr < (10 : ℚ) ^ (a + 1) ∧
        (10 : ℚ) ^ (b - 1) < npMax max_arr ∧
        npMax max_arr ≤ (10 : ℚ) ^ b) := by
  constructor
  · simp [compute_auto_limits]
  · intro hpos1 hpos2
    refine ⟨floorLog10 (npMin min_arr), ceilLog10 (npMax max_arr), ?_, ?_, ?_,
      ?_, ?_⟩
    · simp [compute_auto_limits, magnitude_round]
    · exact (floorLog10_char (npMin min_arr) hpos1).1
    · exact (floorLog10_char (npMin min_arr) hpos1).2
    · exact (ceilLog10_char (npMax max_arr) hpos2).1
    · exact (ceilLog10_char (npMax max_arr) hpos2).2

/-- Witness for C6 at concrete inputs: minima `[2]`, maxima `[30]` give
linear limits `[0.88, 31.12]` and log limits `[1, 100]`. -/
theorem compute_auto_limits_spec_witness :
    (compute_auto_limits [2] [30] false =
      [npMin [2] - 0.04 * (npMax [30] - npMin [2]),
       npMax [30] + 0.04 * (npMax [30] - npMin [2])] ∧
    (0 < npMin [2] → 0 < npMax [30] →
      ∃ a b : ℤ, compute_auto_limits [2] [30] true =
          [(10 : ℚ) ^ a, (10 : ℚ) ^ b] ∧
        (10 : ℚ) ^ a ≤ npMin [2] ∧ npMin [2] < (10 : ℚ) ^ (a + 1) ∧
        (10 : ℚ) ^ (b - 1) < npMax [30] ∧
        npMax [30] ≤ (10 : ℚ) ^ b)) ∧
    (0 : ℚ) < npMin [2] ∧ (0 : ℚ) < npMax [30] :=
  ⟨compute_auto_limits_spec [2] [30] (by simp) (by simp),
   by norm_num [npMin], by norm_num [npMax]⟩

end Plotternova
